import Mathlib

/-!
Verification of git-req remote resolution (src/remotes.rs, src/remotes/bitbucket.rs)

A shallow embedding of the remote-resolution core of the `git-req` repository.
Strings are modelled as `List Char`.  Rust functions that can panic (an
`unwrap`/`expect` on a failed regex match, JSON parse or similar) are modelled
with an outer `Option`, where `none` models the panic.  HTTP responses are
modelled by an explicit environment record holding the status flag and the
parsed body of each endpoint the code may query; the JSON parse step of a body
is modelled by `Option` (with `none` modelling the `expect` panic where the
source uses one).

The regular expressions of the source are embedded by structural recursions
that implement the Rust `regex` crate semantics (leftmost-first match,
greedy quantifiers preferring the longest alternative first) for the concrete
patterns appearing in the source.  Each definition's doc comment states the
pattern it embeds.
-/

/-- Rust `\s` / `char::is_whitespace`, restricted to the ASCII whitespace
relevant here (the model of whitespace used throughout the embedding). -/
def isSpace (c : Char) : Bool := c.isWhitespace

/-- Rust regex `\w` word character (ASCII model). -/
def isWordChar (c : Char) : Bool := c.isAlphanum || c = '_'

/-- `format!("{}", n)` on an integer. -/
def intToString (n : Int) : List Char := (toString n).data

/-- Rust `str::trim`: remove whitespace from both ends. -/
def trim (l : List Char) : List Char :=
  ((l.dropWhile isSpace).reverse.dropWhile isSpace).reverse

/-! ## URL classification (src/remotes.rs lines 307-341, bitbucket.rs 85-90)

The extractors below scan the *reversed* origin string, because all four
source regexes are end-anchored (`$`) with greedy quantifiers, so the
preferred (returned) capture is determined from the right end of the string:
the chosen separator positions are the largest ones admitting a full match.
-/

/-- Core scan for regex `r".*/(\S+)\.git$"` (src/remotes.rs line 318) after the
trailing `.git` has been stripped: walking the reversed remainder, `acc` holds
(in original order) the characters seen since the end; at each `/` the capture
`(\S+)` is the accumulated segment provided it is non-empty and
whitespace-free (greedy `.*` prefers the rightmost such `/`). -/
def glNameCore : List Char → List Char → Option (List Char)
  | [], _ => none
  | c :: rest, acc =>
    if c = '/' then
      if acc ≠ [] ∧ (∀ x ∈ acc, isSpace x = false) then some acc
      else glNameCore rest (c :: acc)
    else glNameCore rest (c :: acc)

/-- `get_gitlab_project_name` (src/remotes.rs lines 316-321), regex
`r".*/(\S+)\.git$"` with `captures(origin).unwrap()`: `none` models the
`unwrap` panic when the regex does not match. -/
def get_gitlab_project_name (l : List Char) : Option (List Char) :=
  let r := l.reverse
  if r.take 4 = [ 't', 'i', 'g', '.' ] then glNameCore (r.drop 4) [] else none

/-- Scan for the `(\S+)` capture of regex `r".*[/:](\S+)/\S+\.git$"`
(src/remotes.rs line 326), entered after the `/` preceding the final path
segment has been located: walking further left, accumulate the capture until
the separator `[/:]` is found; whitespace aborts (the capture is `\S+`), and a
separator adjacent to the already-found `/` is consumed into the capture of a
farther-left separator (the capture must be non-empty). -/
def glNsScanA : List Char → List Char → Option (List Char)
  | [], _ => none
  | c :: rest, acc =>
    if c = '/' ∨ c = ':' then
      if acc ≠ [] then some acc else glNsScanA rest (c :: acc)
    else if isSpace c = true then none
    else glNsScanA rest (c :: acc)

/-- Scan locating the `/` before the final `\S+\.git` of regex
`r".*[/:](\S+)/\S+\.git$"`: identical to the `get_gitlab_project_name` scan
(greedy `.*` prefers the rightmost feasible `/`), then hands over to
`glNsScanA` for the namespace capture. -/
def glNsScanJ : List Char → List Char → Option (List Char)
  | [], _ => none
  | c :: rest, acc =>
    if c = '/' then
      if acc ≠ [] ∧ (∀ x ∈ acc, isSpace x = false) then glNsScanA rest []
      else glNsScanJ rest (c :: acc)
    else glNsScanJ rest (c :: acc)

/-- `get_gitlab_project_namespace` (src/remotes.rs lines 324-331), regex
`r".*[/:](\S+)/\S+\.git$"`; the source returns `Option` itself (no panic). -/
def get_gitlab_project_namespace (l : List Char) : Option (List Char) :=
  let r := l.reverse
  if r.take 4 = [ 't', 'i', 'g', '.' ] then glNsScanJ (r.drop 4) [] else none

/-- Scan for the `:` of regex `r".*:(.*/\S+)\.git\w*$"` (src/remotes.rs line
310): the capture group ends just before the matched `.git`; walking left past
the group's `/`, the inner `.*` accumulates every character (newline aborts,
as `.` does not match a newline) until the `:` closing the capture is found;
greedy outer `.*` prefers the rightmost such `:`. -/
def ghScanI : List Char → List Char → Option (List Char)
  | [], _ => none
  | c :: rest, acc =>
    if c = ':' then some acc
    else if c = '\n' then none
    else ghScanI rest (c :: acc)

/-- Scan for the `/` of the `(.*/\S+)` group of regex
`r".*:(.*/\S+)\.git\w*$"`: the greedy inner `.*` prefers the rightmost `/`
whose following `\S+` segment (up to the matched `.git`) is non-empty and
whitespace-free. -/
def ghScanJ : List Char → List Char → Option (List Char)
  | [], _ => none
  | c :: rest, acc =>
    if c = '/' then
      if acc ≠ [] ∧ (∀ x ∈ acc, isSpace x = false) then ghScanI rest (c :: acc)
      else ghScanJ rest (c :: acc)
    else ghScanJ rest (c :: acc)

/-- Locating the `.git` matched by `\.git\w*$`: it is the unique occurrence
of `.git` whose suffix consists of word characters only (a second such
occurrence would put its `.` inside the word-character suffix of the first).
On the reversed string: strip word characters until the literal `tig.`
(reversed `.git`) heads the list, then scan for the capture group. -/
def ghStrip : List Char → Option (List Char)
  | 't' :: 'i' :: 'g' :: '.' :: rest2 => ghScanJ rest2 []
  | c :: rest => if isWordChar c = true then ghStrip rest else none
  | [] => none

/-- `get_github_project_name` (src/remotes.rs lines 308-313), regex
`r".*:(.*/\S+)\.git\w*$"` with `captures(origin).unwrap()`: `none` models the
`unwrap` panic. -/
def get_github_project_name (l : List Char) : Option (List Char) :=
  ghStrip l.reverse

/-- `get_bitbucket_project_name` (src/remotes/bitbucket.rs lines 85-90): the
source uses the identical regex `r".*:(.*/\S+)\.git\w*$"` and the same
`unwrap`, so the embedding coincides with `get_github_project_name`. -/
def get_bitbucket_project_name (l : List Char) : Option (List Char) :=
  get_github_project_name l

/-! ### Domain extraction (src/remotes.rs lines 334-341)

Regex `r"((http[s]?|ssh)://)?(\S+@)?(?P<domain>([^:/])+)"`, unanchored:
`captures` returns the leftmost match, and within it the optional scheme and
`\S+@` user-info groups are preferred present, `\S+` greedily preferring the
rightmost `@` of the non-whitespace run. -/

/-- The mandatory `([^:/])+` domain group: greedy run of non-`:`/`/`
characters, which must be non-empty. -/
def domainTake : List Char → Option (List Char)
  | [] => none
  | c :: rest =>
    if c = ':' ∨ c = '/' then none
    else some (c :: rest.takeWhile (fun x => ¬(x = ':' ∨ x = '/')))

/-- Backtracking over the `@` of the optional `(\S+@)` group for positions at
offset ≥ 1: rightmost `@` within the non-whitespace run is preferred (greedy
`\S+`); the recursion tries the rest (farther right) first. -/
def uiGo : List Char → Option (List Char)
  | [] => none
  | c :: rest =>
    if isSpace c = true then none
    else
      match uiGo rest with
      | some d => some d
      | none => if c = '@' then domainTake rest else none

/-- The `(\S+@)?` group followed by the domain group, with `\S+` non-empty:
the first character belongs to `\S+`, so the `@` is searched from offset 1. -/
def uiMatch : List Char → Option (List Char)
  | [] => none
  | c :: rest => if isSpace c = true then none else uiGo rest

/-- `(\S+@)?(?P<domain>([^:/])+)`: the user-info group is preferred present;
if no `@` alternative admits a domain, the group matches empty. -/
def restMatch (s : List Char) : Option (List Char) :=
  match uiMatch s with
  | some d => some d
  | none => domainTake s

/-- List prefix test (by value). -/
def hasPrefix (p s : List Char) : Bool := s.take p.length = p

/-- The optional scheme group `((http[s]?|ssh)://)?` at the current position:
`https://` is preferred over `http://` (greedy `[s]?`) over `ssh://`
(alternation order).  At most one of the three literals can match. -/
def schemeLen (s : List Char) : Option Nat :=
  if hasPrefix [ 'h', 't', 't', 'p', 's', ':', '/', '/' ] s then some 8
  else if hasPrefix [ 'h', 't', 't', 'p', ':', '/', '/' ] s then some 7
  else if hasPrefix [ 's', 's', 'h', ':', '/', '/' ] s then some 6
  else none

/-- Match of the whole domain regex at one start position: a matched scheme is
undone (the group matches empty) if the remainder fails. -/
def matchAt (s : List Char) : Option (List Char) :=
  match schemeLen s with
  | some k =>
    match restMatch (s.drop k) with
    | some d => some d
    | none => restMatch s
  | none => restMatch s

/-- Leftmost match: try each start position left to right. -/
def getDomainAux : List Char → Option (List Char)
  | [] => none
  | c :: rest =>
    match matchAt (c :: rest) with
    | some d => some d
    | none => getDomainAux rest

/-- `get_domain` (src/remotes.rs lines 334-341): `Err("invalid remote set")`
when the regex does not match, otherwise the `domain` capture. -/
def get_domain (l : List Char) : Except String (List Char) :=
  match getDomainAux l with
  | some d => Except.ok d
  | none => Except.error "invalid remote set"

/-! ## Data model (src/remotes.rs lines 34-49, 65-74, 102-109, 203-210,
252-271; src/remotes/bitbucket.rs lines 7-23) -/

/-- The normalized `MergeRequest` model (src/remotes.rs lines 34-40). -/
structure MergeRequest where
  id : Int
  title : List Char
  description : Option (List Char)
  source_branch : List Char
deriving DecidableEq

/-- Raw GitHub pull-request payload (src/remotes.rs lines 252-259). -/
structure GitHubPullRequest where
  id : Int
  number : Int
  title : List Char
  body : Option (List Char)
  html_url : List Char
deriving DecidableEq

/-- Raw GitLab merge-request payload (src/remotes.rs lines 261-271). -/
structure GitLabMergeRequest where
  id : Int
  iid : Int
  title : List Char
  description : Option (List Char)
  target_branch : List Char
  source_branch : List Char
  sha : List Char
  web_url : List Char
deriving DecidableEq

/-- Raw Bitbucket pull-request payload (src/remotes/bitbucket.rs 17-23). -/
structure BitbucketPullRequest where
  id : Int
  title : List Char
  summary : Option (List Char)
  html_url : List Char
deriving DecidableEq

/-- GitLab project payload (src/remotes.rs lines 102-109). -/
structure GitLabProject where
  id : Int
  description : Option (List Char)
  name : List Char
  path : List Char
  path_with_namespace : List Char
deriving DecidableEq

/-- GitLab namespace payload (src/remotes.rs lines 203-210). -/
structure GitLabNamespace where
  id : Int
  name : List Char
  path : List Char
  kind : List Char
  full_path : List Char
deriving DecidableEq

/-- The `GitHub` remote struct (src/remotes.rs lines 42-49). -/
structure GitHub where
  id : List Char
  name : List Char
  origin : List Char
  api_root : List Char
  api_key : List Char
deriving DecidableEq

/-- The `GitLab` remote struct (src/remotes.rs lines 65-74); the source field
`namespace` is a Lean keyword and is rendered `nspace`. -/
structure GitLab where
  id : List Char
  domain : List Char
  name : List Char
  nspace : List Char
  origin : List Char
  api_root : List Char
  api_key : List Char
deriving DecidableEq

/-- The `Bitbucket` remote struct (src/remotes/bitbucket.rs lines 7-15). -/
structure Bitbucket where
  id : List Char
  domain : List Char
  name : List Char
  origin : List Char
  api_root : List Char
  api_key : List Char
deriving DecidableEq

/-- The dynamic `Box<Remote>` returned by `get_remote`, as a closed sum of the
three implementers present in the repository. -/
inductive RemoteClient where
  | github : GitHub → RemoteClient
  | gitlab : GitLab → RemoteClient
  | bitbucket : Bitbucket → RemoteClient
deriving DecidableEq

/-! ## Request mapper (src/remotes.rs lines 149-165, bitbucket.rs 60-67) -/

/-- `gitlab_to_mr` (src/remotes.rs lines 149-156). -/
def gitlab_to_mr (req : GitLabMergeRequest) : MergeRequest :=
  { id := req.iid
    title := req.title
    description := req.description
    source_branch := req.source_branch }

/-- `github_to_mr` (src/remotes.rs lines 158-165):
`source_branch = format!("pr/{}", req.number)`. -/
def github_to_mr (req : GitHubPullRequest) : MergeRequest :=
  { id := req.number
    title := req.title
    description := req.body
    source_branch := [ 'p', 'r', '/' ] ++ intToString req.number }

/-- `bitbucket_to_mr` (src/remotes/bitbucket.rs lines 60-67):
`source_branch = format!("pullrequests/{}", req.id)`. -/
def bitbucket_to_mr (req : BitbucketPullRequest) : MergeRequest :=
  { id := req.id
    title := req.title
    description := req.summary
    source_branch := ( "pullrequests/").data ++ intToString req.id }

/-! ## GitLab identity resolution (src/remotes.rs lines 76-82, 121-147,
213-250) -/

/-- One HTTP response: status success flag plus the JSON-parse result of the
body (`none` models the parse failure, which the source turns into an
`expect` panic at every use below). -/
structure ApiResp (α : Type) where
  success : Bool
  body : Option α
deriving DecidableEq

/-- The HTTP environment seen by GitLab identity resolution: the direct
project lookup `GET /projects/<ns>%2F<name>`, the namespace lookup
`GET /namespaces/<ns>`, and the two possible project-list queries. -/
structure GitLabEnv where
  direct : ApiResp GitLabProject
  nsResp : ApiResp GitLabNamespace
  userProjects : Option (List GitLabProject)
  groupProjects : Option (List GitLabProject)
deriving DecidableEq

/-- Errors of `search_gitlab_project_id`.  The source strings are
`Couldnt find namespace` (with apostrophe), `Unknown namespace` and
`Couldnt find project` (with apostrophe); the spec taxonomy calls the first
two `UnresolvableNamespace` and the last `ProjectNotFound`. -/
inductive GlErr where
  | namespaceNotFound
  | unknownNamespace
  | projectNotFound
deriving DecidableEq

/-- The scan of the returned project list (src/remotes.rs lines 246-249):
`projects.iter().find(|&prj| prj.name == remote.name)`. -/
def glFindProject (projects : List GitLabProject) (nm : List Char) :
    Option (Except GlErr Int) :=
  match projects.find? (fun prj => prj.name == nm) with
  | some project => some (Except.ok project.id)
  | none => some (Except.error GlErr.projectNotFound)

/-- `search_gitlab_project_id` (src/remotes.rs lines 213-250).  A non-success
namespace lookup fails; an unknown namespace `kind` fails before any project
query; otherwise the user or group project list is parsed (panic on parse
failure) and scanned for the first exact name match. -/
def search_gitlab_project_id (remote : GitLab) (env : GitLabEnv) :
    Option (Except GlErr Int) :=
  if env.nsResp.success = false then some (Except.error GlErr.namespaceNotFound)
  else
    match env.nsResp.body with
    | none => none
    | some nsBuf =>
      if nsBuf.kind = ( "user").data then
        match env.userProjects with
        | none => none
        | some projects => glFindProject projects remote.name
      else if nsBuf.kind = ( "group").data then
        match env.groupProjects with
        | none => none
        | some projects => glFindProject projects remote.name
      else some (Except.error GlErr.unknownNamespace)

/-- The message of src/remotes.rs lines 137-139, returned when both the
direct lookup and the fallback search fail. -/
def glFallbackMsg : String :=
  "Unable to get the project ID from the GitLab API.\nFind and configure your project ID using the instructions at: https://github.com/arusahni/git-req/wiki/Finding-Project-IDs"

/-- `query_gitlab_project_id` (src/remotes.rs lines 121-147): on a non-success
status of the direct lookup, fall back to `search_gitlab_project_id` (any
search error collapses into `glFallbackMsg`); on success, parse the body
(panic on parse failure) and return its `id`. -/
def query_gitlab_project_id (remote : GitLab) (env : GitLabEnv) :
    Option (Except String Int) :=
  if env.direct.success = false then
    match search_gitlab_project_id remote env with
    | none => none
    | some (Except.ok i) => some (Except.ok i)
    | some (Except.error _) => some (Except.error glFallbackMsg)
  else
    match env.direct.body with
    | none => none
    | some buf => some (Except.ok buf.id)

/-- `GitLab::get_project_id` (src/remotes.rs lines 77-82): when `self.id` is
empty, resolve via `query_gitlab_project_id`, store
`format!("{}", ...)` into `self.id`, and return it; otherwise return the
cached value.  The result pairs the returned string with the updated
struct. -/
def GitLab.get_project_id (g : GitLab) (env : GitLabEnv) :
    Option (Except String (List Char × GitLab)) :=
  if g.id = [] then
    match query_gitlab_project_id g env with
    | none => none
    | some (Except.error e) => some (Except.error e)
    | some (Except.ok n) =>
      some (Except.ok (intToString n, { g with id := intToString n }))
  else some (Except.ok (g.id, g))

/-! ## Credential lookup and remote construction (src/remotes.rs 343-419) -/

/-- Result of `get_api_key`: the key used, whether the interactive prompt
ran, and the value persisted via `set_req_config` (if any). -/
structure ApiKeyResult where
  key : List Char
  prompted : Bool
  persisted : Option (List Char)
deriving DecidableEq

/-- `get_api_key` (src/remotes.rs lines 343-359).  `stored` is the result of
`git::get_req_config(domain, "apikey")` (modelled from the spec contract
`get_token(domain) -> Option<token>`; the git module is not part of the
sources); `input` is the line read from the interactive prompt.  A stored key
is returned as is; on a miss the prompt runs once, the input is trimmed,
persisted, and returned. -/
def get_api_key (stored : Option (List Char)) (input : List Char) :
    ApiKeyResult :=
  match stored with
  | some key => { key := key, prompted := false, persisted := none }
  | none =>
    let t := trim input
    { key := t, prompted := true, persisted := some t }

/-- The collaborators of `get_remote`: the per-domain api-key store, the
interactive prompt input, the repo-local `projectid` config
(`git::get_config("projectid")`, modelled from the spec contract
`get(key) -> Option<string>`), and the GitLab HTTP environment. -/
structure Ctx where
  apikeyStore : List Char → Option (List Char)
  promptInput : List Char
  projectIdStore : Option (List Char)
  glEnv : GitLabEnv

/-- The writes performed during `get_remote`. -/
structure Effects where
  apikeyWrite : Option (List Char × List Char)
  prompted : Bool
  projectIdWrite : Option (List Char)
deriving DecidableEq

/-- `get_remote` (src/remotes.rs lines 362-419).  Domain `github.com` builds
a `GitHub` client from `get_github_project_name` (whose `unwrap` panic
propagates as `none`); every other domain builds a `GitLab` client: the
namespace must parse, the name is extracted, the api key fetched, and the
project id taken from the `projectid` config if present, otherwise resolved
through `GitLab.get_project_id` and persisted (`git::set_config`). -/
def get_remote (origin : List Char) (ctx : Ctx) :
    Option (Except String (RemoteClient × Effects)) :=
  match getDomainAux origin with
  | none => some (Except.error "invalid remote set")
  | some domain =>
    if domain = ( "github.com").data then
      match get_github_project_name origin with
      | none => none
      | some nm =>
        let ak := get_api_key (ctx.apikeyStore (( "github.com").data))
          ctx.promptInput
        some (Except.ok
          (RemoteClient.github
            { id := nm, name := nm, origin := origin
              api_root := ( "https://api.github.com/repos").data
              api_key := ak.key },
          { apikeyWrite := ak.persisted.map (fun v => (domain, v))
            prompted := ak.prompted
            projectIdWrite := none }))
    else
      match get_gitlab_project_namespace origin with
      | none =>
        some (Except.error
          "Could not parse the GitLab project namespace from the origin.")
      | some ns =>
        match get_gitlab_project_name origin with
        | none => none
        | some nm =>
          let ak := get_api_key (ctx.apikeyStore domain) ctx.promptInput
          let base : GitLab :=
            { id := [], domain := domain, name := nm, nspace := ns
              origin := origin
              api_root := ( "https://").data ++ domain ++ ( "/api/v4").data
              api_key := ak.key }
          match ctx.projectIdStore with
          | some pid =>
            some (Except.ok
              (RemoteClient.gitlab { base with id := pid },
              { apikeyWrite := ak.persisted.map (fun v => (domain, v))
                prompted := ak.prompted
                projectIdWrite := none }))
          | none =>
            match GitLab.get_project_id base ctx.glEnv with
            | none => none
            | some (Except.error e) => some (Except.error e)
            | some (Except.ok (pid, g2)) =>
              some (Except.ok
                (RemoteClient.gitlab { g2 with id := pid },
                { apikeyWrite := ak.persisted.map (fun v => (domain, v))
                  prompted := ak.prompted
                  projectIdWrite := some pid }))

/-! ## Claim theorems -/

/-- C4: for every GitHub pull-request payload and every Bitbucket
pull-request payload, the mapper sets `source_branch` to exactly
`pr/<number>` (GitHub) resp. `pullrequests/<id>` (Bitbucket), independent of
title and description content (the field equations mention neither); the
concrete GitHub payload with `number = 7`, title `Fix bug`, `body = null`
maps to `MergeRequest` with `id = 7`, the same title, no description and
`source_branch = pr/7`. -/
theorem c4_mapper_branches :
    (∀ req : GitHubPullRequest,
      github_to_mr req =
        { id := req.number, title := req.title, description := req.body
          source_branch := [ 'p', 'r', '/' ] ++ intToString req.number })
  ∧ (∀ req : BitbucketPullRequest,
      bitbucket_to_mr req =
        { id := req.id, title := req.title, description := req.summary
          source_branch := ( "pullrequests/").data ++ intToString req.id })
  ∧ github_to_mr
      { id := 100, number := 7, title := ( "Fix bug").data, body := none
        html_url := [] } =
      { id := 7, title := ( "Fix bug").data, description := none
        source_branch := ( "pr/7").data } :=
  ⟨fun _ => rfl, fun _ => rfl, by decide⟩

/-- C5: the GitLab mapper copies `source_branch` verbatim, maps `iid` (not
the global `id`) into the normalized `id`, and maps title and description
through; the concrete instance with global `id = 5` and `iid = 2` normalizes
to `id = 2`, differing from its global id. -/
theorem c5_gitlab_mapper :
    (∀ req : GitLabMergeRequest,
      gitlab_to_mr req =
        { id := req.iid, title := req.title, description := req.description
          source_branch := req.source_branch })
  ∧ (gitlab_to_mr
      { id := 5, iid := 2, title := [], description := none
        target_branch := [], source_branch := ( "feature/x").data
        sha := [], web_url := [] }).id = 2
  ∧ (gitlab_to_mr
      { id := 5, iid := 2, title := [], description := none
        target_branch := [], source_branch := ( "feature/x").data
        sha := [], web_url := [] }).id ≠ 5 :=
  ⟨fun _ => rfl, rfl, by decide⟩

/-- C7 counterexample: an empty *stored* token is returned silently — the
prompt does not run (`prompted = false`) and nothing is persisted — refuting
the claim that an empty stored token is treated as "not configured" and
triggers the prompt path. -/
theorem c7_counterexample :
    get_api_key (some []) ( " newtoken ").data =
      { key := [], prompted := false, persisted := none } := rfl

/-- C7 (amended): credential lookup first consults the store and uses any
stored token as is (even the empty string, without prompting); only on a
store miss does it prompt (once), trim the entered token, persist the
trimmed value and proceed with it. -/
theorem c7_api_key :
    (∀ k input, get_api_key (some k) input =
      { key := k, prompted := false, persisted := none })
  ∧ (∀ input, get_api_key none input =
      { key := trim input, prompted := true, persisted := some (trim input) })
  ∧ get_api_key (some []) ( "tok").data =
      { key := [], prompted := false, persisted := none }
  ∧ get_api_key none ( "  my token\n").data =
      { key := ( "my token").data, prompted := true
        persisted := some (( "my token").data) } :=
  ⟨fun _ _ => rfl, fun _ => rfl, rfl, by decide⟩

/-! ## Helper lemmas for the scans -/

/-- The character list of the literal `.git` suffix. -/
def gitSuffix : List Char := [ '.', 'g', 'i', 't' ]

theorem glNameCore_skip (xs : List Char) :
    ∀ (rest acc : List Char), (∀ c ∈ xs, c ≠ '/') →
    glNameCore (xs ++ rest) acc = glNameCore rest (xs.reverse ++ acc) := by
  induction xs with
  | nil => intro rest acc _; simp
  | cons c xs ih =>
    intro rest acc h
    have hc : ¬(c = '/') := h c (List.mem_cons_self c xs)
    have hx : ∀ x ∈ xs, x ≠ '/' := fun x hm => h x (List.mem_cons_of_mem c hm)
    simp only [List.cons_append, glNameCore, if_neg hc, List.append_eq]
    rw [ih rest (c :: acc) hx]
    simp [List.append_assoc]

theorem glNameCore_find (rest acc : List Char) (h1 : acc ≠ [])
    (h2 : ∀ x ∈ acc, isSpace x = false) :
    glNameCore ('/' :: rest) acc = some acc := by
  simp [glNameCore, h1, h2]
  intro x hx hxs
  rw [h2 x hx] at hxs
  exact Bool.noConfusion hxs

theorem get_gitlab_project_name_eq (pre n : List Char) (hn : n ≠ [])
    (hns : ∀ c ∈ n, isSpace c = false) (hnl : ∀ c ∈ n, c ≠ '/') :
    get_gitlab_project_name (pre ++ '/' :: (n ++ gitSuffix)) = some n := by
  have hrev : (pre ++ '/' :: (n ++ gitSuffix)).reverse
      = 't' :: 'i' :: 'g' :: '.' :: (n.reverse ++ '/' :: pre.reverse) := by
    simp [gitSuffix, List.reverse_append]
  unfold get_gitlab_project_name
  rw [hrev]
  simp only [List.take, List.drop]
  rw [if_pos trivial]
  rw [glNameCore_skip n.reverse _ [] (fun c hc => hnl c (List.mem_reverse.mp hc))]
  rw [List.append_nil, List.reverse_reverse]
  exact glNameCore_find _ _ hn hns

theorem glNsScanJ_skip (xs : List Char) :
    ∀ (rest acc : List Char), (∀ c ∈ xs, c ≠ '/') →
    glNsScanJ (xs ++ rest) acc = glNsScanJ rest (xs.reverse ++ acc) := by
  induction xs with
  | nil => intro rest acc _; simp
  | cons c xs ih =>
    intro rest acc h
    have hc : ¬(c = '/') := h c (List.mem_cons_self c xs)
    have hx : ∀ x ∈ xs, x ≠ '/' := fun x hm => h x (List.mem_cons_of_mem c hm)
    simp only [List.cons_append, glNsScanJ, if_neg hc, List.append_eq]
    rw [ih rest (c :: acc) hx]
    simp [List.append_assoc]

theorem glNsScanJ_find (rest acc : List Char) (h1 : acc ≠ [])
    (h2 : ∀ x ∈ acc, isSpace x = false) :
    glNsScanJ ('/' :: rest) acc = glNsScanA rest [] := by
  simp [glNsScanJ, h1, h2]
  intro x hx hxs
  rw [h2 x hx] at hxs
  exact Bool.noConfusion hxs

theorem glNsScanA_skip (xs : List Char) :
    ∀ (rest acc : List Char),
    (∀ c ∈ xs, c ≠ '/' ∧ c ≠ ':' ∧ isSpace c = false) →
    glNsScanA (xs ++ rest) acc = glNsScanA rest (xs.reverse ++ acc) := by
  induction xs with
  | nil => intro rest acc _; simp
  | cons c xs ih =>
    intro rest acc h
    obtain ⟨h1, h2, h3⟩ := h c (List.mem_cons_self c xs)
    have hx := fun x hm => h x (List.mem_cons_of_mem c hm)
    have hor : ¬(c = '/' ∨ c = ':') := by simp [h1, h2]
    simp only [List.cons_append, glNsScanA, if_neg hor, h3, List.append_eq,
      Bool.false_eq_true, if_false]
    rw [ih rest (c :: acc) hx]
    simp [List.append_assoc]

theorem glNsScanA_find (c : Char) (rest acc : List Char)
    (hc : c = '/' ∨ c = ':') (ha : acc ≠ []) :
    glNsScanA (c :: rest) acc = some acc := by
  simp [glNsScanA, hc, ha]

theorem get_gitlab_project_namespace_eq (pre2 ns n : List Char) (sep : Char)
    (hsep : sep = '/' ∨ sep = ':') (hns : ns ≠ [])
    (hnsc : ∀ c ∈ ns, c ≠ '/' ∧ c ≠ ':' ∧ isSpace c = false)
    (hn : n ≠ []) (hnsp : ∀ c ∈ n, isSpace c = false)
    (hnl : ∀ c ∈ n, c ≠ '/') :
    get_gitlab_project_namespace (pre2 ++ sep :: (ns ++ '/' :: (n ++ gitSuffix)))
      = some ns := by
  have hrev : (pre2 ++ sep :: (ns ++ '/' :: (n ++ gitSuffix))).reverse
      = 't' :: 'i' :: 'g' :: '.' ::
        (n.reverse ++ '/' :: (ns.reverse ++ sep :: pre2.reverse)) := by
    simp [gitSuffix, List.reverse_append]
  unfold get_gitlab_project_namespace
  rw [hrev]
  simp only [List.take, List.drop]
  rw [if_pos trivial]
  rw [glNsScanJ_skip n.reverse _ _ (fun c hc => hnl c (List.mem_reverse.mp hc))]
  rw [List.append_nil, List.reverse_reverse]
  rw [glNsScanJ_find _ _ hn hnsp]
  rw [glNsScanA_skip ns.reverse _ []
    (fun c hc => hnsc c (List.mem_reverse.mp hc))]
  rw [List.append_nil, List.reverse_reverse]
  exact glNsScanA_find sep _ _ hsep hns

theorem ghScanI_skip (xs : List Char) :
    ∀ (rest acc : List Char), (∀ c ∈ xs, c ≠ ':' ∧ c ≠ '\n') →
    ghScanI (xs ++ rest) acc = ghScanI rest (xs.reverse ++ acc) := by
  induction xs with
  | nil => intro rest acc _; simp
  | cons c xs ih =>
    intro rest acc h
    obtain ⟨h1, h2⟩ := h c (List.mem_cons_self c xs)
    have hx := fun x hm => h x (List.mem_cons_of_mem c hm)
    simp only [List.cons_append, ghScanI, if_neg h1, if_neg h2, List.append_eq]
    rw [ih rest (c :: acc) hx]
    simp [List.append_assoc]

theorem ghScanI_find (rest acc : List Char) :
    ghScanI (':' :: rest) acc = some acc := by
  simp [ghScanI]

theorem ghScanJ_skip (xs : List Char) :
    ∀ (rest acc : List Char), (∀ c ∈ xs, c ≠ '/') →
    ghScanJ (xs ++ rest) acc = ghScanJ rest (xs.reverse ++ acc) := by
  induction xs with
  | nil => intro rest acc _; simp
  | cons c xs ih =>
    intro rest acc h
    have hc : ¬(c = '/') := h c (List.mem_cons_self c xs)
    have hx : ∀ x ∈ xs, x ≠ '/' := fun x hm => h x (List.mem_cons_of_mem c hm)
    simp only [List.cons_append, ghScanJ, if_neg hc, List.append_eq]
    rw [ih rest (c :: acc) hx]
    simp [List.append_assoc]

theorem ghScanJ_find (rest acc : List Char) (h1 : acc ≠ [])
    (h2 : ∀ x ∈ acc, isSpace x = false) :
    ghScanJ ('/' :: rest) acc = ghScanI rest ('/' :: acc) := by
  simp [ghScanJ, h1, h2]
  intro x hx hxs
  rw [h2 x hx] at hxs
  exact Bool.noConfusion hxs

theorem get_github_project_name_eq (pre3 mid seg : List Char)
    (hmid : ∀ c ∈ mid, c ≠ ':' ∧ c ≠ '\n')
    (hseg : seg ≠ []) (hsegs : ∀ c ∈ seg, isSpace c = false)
    (hsegl : ∀ c ∈ seg, c ≠ '/') :
    get_github_project_name (pre3 ++ ':' :: (mid ++ '/' :: (seg ++ gitSuffix)))
      = some (mid ++ '/' :: seg) := by
  have hrev : (pre3 ++ ':' :: (mid ++ '/' :: (seg ++ gitSuffix))).reverse
      = 't' :: 'i' :: 'g' :: '.' ::
        (seg.reverse ++ '/' :: (mid.reverse ++ ':' :: pre3.reverse)) := by
    simp [gitSuffix, List.reverse_append]
  unfold get_github_project_name
  rw [hrev]
  show ghScanJ (seg.reverse ++ '/' :: (mid.reverse ++ ':' :: pre3.reverse)) []
      = some (mid ++ '/' :: seg)
  rw [ghScanJ_skip seg.reverse _ _ (fun c hc => hsegl c (List.mem_reverse.mp hc))]
  rw [List.append_nil, List.reverse_reverse]
  rw [ghScanJ_find _ _ hseg hsegs]
  rw [ghScanI_skip mid.reverse _ _
    (fun c hc => hmid c (List.mem_reverse.mp hc))]
  rw [List.reverse_reverse]
  exact ghScanI_find _ _

/-! ## Helper lemmas for domain extraction -/

theorem takeWhile_all_app {p : Char → Bool} (xs : List Char) :
    ∀ (y : Char) (ys : List Char), (∀ c ∈ xs, p c = true) → p y = false →
    (xs ++ y :: ys).takeWhile p = xs := by
  induction xs with
  | nil => intro y ys _ hy; simp [List.takeWhile_cons, hy]
  | cons c xs ih =>
    intro y ys h hy
    have hc := h c (List.mem_cons_self c xs)
    simp only [List.cons_append, List.takeWhile_cons, hc, if_true]
    rw [ih y ys (fun d hd => h d (List.mem_cons_of_mem c hd)) hy]

theorem uiGo_skip (xs : List Char) :
    ∀ (t : List Char), (∀ c ∈ xs, isSpace c = false ∧ c ≠ '@') →
    uiGo (xs ++ t) = uiGo t := by
  induction xs with
  | nil => intro t _; simp
  | cons c xs ih =>
    intro t h
    obtain ⟨h1, h2⟩ := h c (List.mem_cons_self c xs)
    have hx := fun x hm => h x (List.mem_cons_of_mem c hm)
    simp only [List.cons_append, uiGo, h1, Bool.false_eq_true, if_false,
      List.append_eq]
    rw [ih t hx]
    cases hu : uiGo t with
    | some d => rfl
    | none => simp [h2]

theorem uiGo_none (xs : List Char)
    (h : ∀ c ∈ xs, isSpace c = false ∧ c ≠ '@') : uiGo xs = none := by
  have := uiGo_skip xs [] h
  rw [List.append_nil] at this
  rw [this]
  rfl

theorem domainTake_eq (d : List Char) (sepc : Char) (t : List Char)
    (hd : d ≠ []) (hdc : ∀ c ∈ d, c ≠ ':' ∧ c ≠ '/')
    (hsep : sepc = ':' ∨ sepc = '/') :
    domainTake (d ++ sepc :: t) = some d := by
  cases d with
  | nil => exact absurd rfl hd
  | cons c ds =>
    obtain ⟨h1, h2⟩ := hdc c (List.mem_cons_self c ds)
    have hor : ¬(c = ':' ∨ c = '/') := by simp [h1, h2]
    simp only [List.cons_append, domainTake, if_neg hor]
    congr 1
    congr 1
    apply takeWhile_all_app
    · intro x hx
      obtain ⟨hx1, hx2⟩ := hdc x (List.mem_cons_of_mem c hx)
      simp [hx1, hx2]
    · simp [hsep]

/-- On a store of the shape `d ++ sep :: t` with a well-behaved `d`, the
user-info group finds no `@` and the domain group returns `d`. -/
theorem restMatch_eq (d : List Char) (sepc : Char) (t : List Char)
    (hd : d ≠ [])
    (hdc : ∀ c ∈ d, isSpace c = false ∧ c ≠ '@' ∧ c ≠ ':' ∧ c ≠ '/')
    (ht : ∀ c ∈ t, isSpace c = false ∧ c ≠ '@')
    (hsep : sepc = ':' ∨ sepc = '/') :
    restMatch (d ++ sepc :: t) = some d := by
  have hall : ∀ c ∈ d ++ sepc :: t, isSpace c = false ∧ c ≠ '@' := by
    intro c hc
    rcases List.mem_append.mp hc with h | h
    · exact ⟨(hdc c h).1, (hdc c h).2.1⟩
    · rcases List.mem_cons.mp h with h | h
      · subst h
        constructor
        · rcases hsep with h | h <;> simp [h, isSpace]
        · rcases hsep with h | h <;> simp [h]
      · exact ht c h
  cases d with
  | nil => exact absurd rfl hd
  | cons c ds =>
    have hsp : isSpace c = false := (hall c (by simp)).1
    simp only [List.cons_append, restMatch, uiMatch, hsp, Bool.false_eq_true,
      if_false]
    have hgo : uiGo (ds ++ sepc :: t) = none := by
      apply uiGo_none
      intro x hx
      exact hall x (List.mem_cons_of_mem c hx)
    rw [hgo]
    show domainTake (c :: ds ++ sepc :: t) = some (c :: ds)
    apply domainTake_eq _ _ _ hd (fun x hx => ⟨(hdc x hx).2.2.1, (hdc x hx).2.2.2⟩) hsep

theorem take_len_app (p s : List Char) : (p ++ s).take p.length = p := by
  induction p with
  | nil => simp
  | cons c ps ih => simp [ih]

theorem hasPrefix_cons_ne (p1 : Char) (ps : List Char) (c : Char)
    (s : List Char) (hc : c ≠ p1) : hasPrefix (p1 :: ps) (c :: s) = false := by
  simp [hasPrefix, List.take_succ_cons, hc]

theorem schemeLen_g_none (X : List Char) : schemeLen ('g' :: X) = none := by
  simp [schemeLen,
    hasPrefix_cons_ne 'h' _ 'g' _ (by decide),
    hasPrefix_cons_ne 's' _ 'g' _ (by decide)]

theorem matchAt_ssh (d t : List Char) (hd : d ≠ [])
    (hdc : ∀ c ∈ d, isSpace c = false ∧ c ≠ '@' ∧ c ≠ ':' ∧ c ≠ '/')
    (ht : ∀ c ∈ t, isSpace c = false ∧ c ≠ '@') :
    matchAt ('g' :: 'i' :: 't' :: '@' :: (d ++ ':' :: t)) = some d := by
  have h1 : uiGo (d ++ ':' :: t) = none := by
    apply uiGo_none
    intro c hc
    rcases List.mem_append.mp hc with h | h
    · exact ⟨(hdc c h).1, (hdc c h).2.1⟩
    · rcases List.mem_cons.mp h with h | h
      · subst h; exact ⟨by decide, by decide⟩
      · exact ht c h
  have h2 : uiGo ('@' :: (d ++ ':' :: t)) = some d := by
    simp only [uiGo, h1]
    exact domainTake_eq d ':' t hd
      (fun x hx => ⟨(hdc x hx).2.2.1, (hdc x hx).2.2.2⟩) (Or.inl rfl)
  have h3 : uiMatch ('g' :: 'i' :: 't' :: '@' :: (d ++ ':' :: t)) = some d := by
    simp only [uiMatch]
    show uiGo ([ 'i', 't' ] ++ ('@' :: (d ++ ':' :: t))) = some d
    rw [uiGo_skip [ 'i', 't' ] _ (by decide)]
    exact h2
  unfold matchAt
  rw [schemeLen_g_none]
  unfold restMatch
  rw [h3]

theorem getDomainAux_ssh (d t : List Char) (hd : d ≠ [])
    (hdc : ∀ c ∈ d, isSpace c = false ∧ c ≠ '@' ∧ c ≠ ':' ∧ c ≠ '/')
    (ht : ∀ c ∈ t, isSpace c = false ∧ c ≠ '@') :
    getDomainAux ('g' :: 'i' :: 't' :: '@' :: (d ++ ':' :: t)) = some d := by
  unfold getDomainAux
  rw [matchAt_ssh d t hd hdc ht]

theorem matchAt_https (d t : List Char) (hd : d ≠ [])
    (hdc : ∀ c ∈ d, isSpace c = false ∧ c ≠ '@' ∧ c ≠ ':' ∧ c ≠ '/')
    (ht : ∀ c ∈ t, isSpace c = false ∧ c ≠ '@') :
    matchAt ('h' :: 't' :: 't' :: 'p' :: 's' :: ':' :: '/' :: '/' ::
      (d ++ '/' :: t)) = some d := by
  have hsl : schemeLen ('h' :: 't' :: 't' :: 'p' :: 's' :: ':' :: '/' :: '/' ::
      (d ++ '/' :: t)) = some 8 := by
    have : ('h' :: 't' :: 't' :: 'p' :: 's' :: ':' :: '/' :: '/' ::
        (d ++ '/' :: t))
        = [ 'h', 't', 't', 'p', 's', ':', '/', '/' ] ++ (d ++ '/' :: t) := rfl
    rw [this]
    simp [schemeLen, hasPrefix, take_len_app]
  show (match restMatch (d ++ '/' :: t) with
    | some d2 => some d2
    | none => restMatch ('h' :: 't' :: 't' :: 'p' :: 's' :: ':' :: '/' :: '/' ::
        (d ++ '/' :: t))) = some d
  rw [restMatch_eq d '/' t hd hdc ht (Or.inr rfl)]

theorem getDomainAux_https (d t : List Char) (hd : d ≠ [])
    (hdc : ∀ c ∈ d, isSpace c = false ∧ c ≠ '@' ∧ c ≠ ':' ∧ c ≠ '/')
    (ht : ∀ c ∈ t, isSpace c = false ∧ c ≠ '@') :
    getDomainAux ('h' :: 't' :: 't' :: 'p' :: 's' :: ':' :: '/' :: '/' ::
      (d ++ '/' :: t)) = some d := by
  unfold getDomainAux
  rw [matchAt_https d t hd hdc ht]

/-! ## Well-formed origin families (spec section 8) -/

/-- A well-formed origin segment (domain, namespace, or project name): it is
non-empty and free of whitespace, `:`, `/` and `@`. -/
def wfSeg (l : List Char) : Bool :=
  !l.isEmpty &&
    l.all (fun c => !(isSpace c) && !(c == ':') && !(c == '/') && !(c == '@'))

theorem wfSeg_spec (l : List Char) (h : wfSeg l = true) :
    l ≠ [] ∧ ∀ c ∈ l, isSpace c = false ∧ c ≠ ':' ∧ c ≠ '/' ∧ c ≠ '@' := by
  unfold wfSeg at h
  rw [Bool.and_eq_true] at h
  obtain ⟨h1, h2⟩ := h
  rw [List.all_eq_true] at h2
  refine ⟨?_, ?_⟩
  · intro hnil; subst hnil; simp at h1
  · intro c hc
    have h3 := h2 c hc
    rw [Bool.and_eq_true, Bool.and_eq_true, Bool.and_eq_true] at h3
    obtain ⟨⟨⟨ha, hb⟩, hc2⟩, hd2⟩ := h3
    refine ⟨?_, ?_, ?_, ?_⟩
    · rw [Bool.not_eq_true'] at ha; exact ha
    · intro he; subst he; simp at hb
    · intro he; subst he; simp at hc2
    · intro he; subst he; simp at hd2

/-- SSH-style origin `git@<domain>:<ns>/<name>.git`. -/
def sshOrigin (d ns n : List Char) : List Char :=
  ( "git@").data ++ (d ++ ':' :: (ns ++ '/' :: (n ++ gitSuffix)))

/-- HTTPS-style origin `https://<domain>/<ns>/<name>.git`. -/
def httpsOrigin (d ns n : List Char) : List Char :=
  ( "https://").data ++ (d ++ '/' :: (ns ++ '/' :: (n ++ gitSuffix)))

/-- C2: for every well-formed SSH-style origin `git@<domain>:<ns>/<name>.git`
and every well-formed HTTPS-style origin `https://<domain>/<ns>/<name>.git`,
classification under the GitLab convention yields `domain = <domain>`
(`get_domain`), `namespace = <ns>` (`get_gitlab_project_namespace`, the
segment immediately preceding the name) and `name = <name>`
(`get_gitlab_project_name`, the last path segment without the `.git`
suffix). -/
theorem c2_classification (d ns n : List Char)
    (hd : wfSeg d = true) (hns : wfSeg ns = true) (hn : wfSeg n = true) :
    (get_domain (sshOrigin d ns n) = Except.ok d
      ∧ get_gitlab_project_namespace (sshOrigin d ns n) = some ns
      ∧ get_gitlab_project_name (sshOrigin d ns n) = some n)
  ∧ (get_domain (httpsOrigin d ns n) = Except.ok d
      ∧ get_gitlab_project_namespace (httpsOrigin d ns n) = some ns
      ∧ get_gitlab_project_name (httpsOrigin d ns n) = some n) := by
  obtain ⟨hd1, hd2⟩ := wfSeg_spec d hd
  obtain ⟨hns1, hns2⟩ := wfSeg_spec ns hns
  obtain ⟨hn1, hn2⟩ := wfSeg_spec n hn
  have hdc : ∀ c ∈ d, isSpace c = false ∧ c ≠ '@' ∧ c ≠ ':' ∧ c ≠ '/' :=
    fun c hc =>
      ⟨(hd2 c hc).1, (hd2 c hc).2.2.2, (hd2 c hc).2.1, (hd2 c hc).2.2.1⟩
  have hgit : ∀ c ∈ gitSuffix, isSpace c = false ∧ c ≠ '@' := by
    intro c hc
    simp [gitSuffix] at hc
    rcases hc with h | h | h | h <;> subst h <;> exact ⟨by decide, by decide⟩
  have htail : ∀ c ∈ ns ++ '/' :: (n ++ gitSuffix),
      isSpace c = false ∧ c ≠ '@' := by
    intro c hc
    rcases List.mem_append.mp hc with h | h
    · exact ⟨(hns2 c h).1, (hns2 c h).2.2.2⟩
    · rcases List.mem_cons.mp h with h | h
      · subst h; exact ⟨by decide, by decide⟩
      · rcases List.mem_append.mp h with h | h
        · exact ⟨(hn2 c h).1, (hn2 c h).2.2.2⟩
        · exact hgit c h
  have hnspace : ∀ c ∈ n, isSpace c = false := fun c hc => (hn2 c hc).1
  have hnslash : ∀ c ∈ n, c ≠ '/' := fun c hc => (hn2 c hc).2.2.1
  have hnsc : ∀ c ∈ ns, c ≠ '/' ∧ c ≠ ':' ∧ isSpace c = false :=
    fun c hc => ⟨(hns2 c hc).2.2.1, (hns2 c hc).2.1, (hns2 c hc).1⟩
  refine ⟨⟨?_, ?_, ?_⟩, ⟨?_, ?_, ?_⟩⟩
  · unfold get_domain
    have e : sshOrigin d ns n
        = 'g' :: 'i' :: 't' :: '@' ::
          (d ++ ':' :: (ns ++ '/' :: (n ++ gitSuffix))) := rfl
    rw [e, getDomainAux_ssh d _ hd1 hdc htail]
  · have e : sshOrigin d ns n
        = (( "git@").data ++ d) ++ ':' :: (ns ++ '/' :: (n ++ gitSuffix)) := by
      simp [sshOrigin, List.append_assoc]
    rw [e]
    exact get_gitlab_project_namespace_eq _ ns n ':' (Or.inr rfl) hns1 hnsc
      hn1 hnspace hnslash
  · have e : sshOrigin d ns n
        = (( "git@").data ++ d ++ ':' :: ns) ++ '/' :: (n ++ gitSuffix) := by
      simp [sshOrigin, List.append_assoc]
    rw [e]
    exact get_gitlab_project_name_eq _ n hn1 hnspace hnslash
  · unfold get_domain
    have e : httpsOrigin d ns n
        = 'h' :: 't' :: 't' :: 'p' :: 's' :: ':' :: '/' :: '/' ::
          (d ++ '/' :: (ns ++ '/' :: (n ++ gitSuffix))) := rfl
    rw [e, getDomainAux_https d _ hd1 hdc htail]
  · have e : httpsOrigin d ns n
        = (( "https://").data ++ d) ++ '/' :: (ns ++ '/' :: (n ++ gitSuffix)) := by
      simp [httpsOrigin, List.append_assoc]
    rw [e]
    exact get_gitlab_project_namespace_eq _ ns n '/' (Or.inl rfl) hns1 hnsc
      hn1 hnspace hnslash
  · have e : httpsOrigin d ns n
        = (( "https://").data ++ d ++ '/' :: ns) ++ '/' :: (n ++ gitSuffix) := by
      simp [httpsOrigin, List.append_assoc]
    rw [e]
    exact get_gitlab_project_name_eq _ n hn1 hnspace hnslash

/-- C2 witness: the spec's concrete GitLab scenario, instantiated through
`c2_classification`. -/
theorem c2_witness :
    get_domain (sshOrigin (( "gitlab.com").data) (( "my_namespace").data)
        (( "my_project").data)) = Except.ok (( "gitlab.com").data)
  ∧ get_gitlab_project_namespace (httpsOrigin (( "gitlab.com").data)
        (( "my_namespace").data) (( "my_project").data))
      = some (( "my_namespace").data)
  ∧ get_gitlab_project_name (httpsOrigin (( "gitlab.com").data)
        (( "my_namespace").data) (( "my_project").data))
      = some (( "my_project").data) := by
  have h := c2_classification (( "gitlab.com").data) (( "my_namespace").data)
    (( "my_project").data) (by decide) (by decide) (by decide)
  exact ⟨h.1.1, h.2.2.1, h.2.2.2⟩

/-- C3 counterexample: on the well-formed HTTPS origin
`https://github.com/owner/repo.git` the extraction returns
`//github.com/owner/repo` — the greedy match anchors at the scheme colon, so
the embedded `//<domain>` is kept — not the claimed `owner/repo`. -/
theorem c3_counterexample :
    get_github_project_name (( "https://github.com/owner/repo.git").data)
      = some (( "//github.com/owner/repo").data)
  ∧ ¬ get_github_project_name (( "https://github.com/owner/repo.git").data)
      = some (( "owner/repo").data) := by
  constructor
  · decide
  · decide

/-- C3 (amended): for well-formed SSH-style origins
`git@<domain>:<owner>/<repo>.git` the GitHub/Bitbucket name extraction
returns `owner/repo` (embedded slash preserved); for well-formed HTTPS-style
origins `https://<domain>/<owner>/<repo>.git` it returns the entire suffix
between the scheme colon and the trailing `.git`, namely
`//<domain>/<owner>/<repo>`; `get_bitbucket_project_name` behaves
identically, and in particular `git@bitbucket.org:shorsher/test.git` yields
`shorsher/test`. -/
theorem c3_name_extraction (d o r0 : List Char)
    (hd : wfSeg d = true) (ho : wfSeg o = true) (hr : wfSeg r0 = true) :
    get_github_project_name (sshOrigin d o r0) = some (o ++ '/' :: r0)
  ∧ get_github_project_name (httpsOrigin d o r0)
      = some ('/' :: '/' :: (d ++ '/' :: (o ++ '/' :: r0)))
  ∧ get_bitbucket_project_name (sshOrigin d o r0) = some (o ++ '/' :: r0) := by
  obtain ⟨hd1, hd2⟩ := wfSeg_spec d hd
  obtain ⟨ho1, ho2⟩ := wfSeg_spec o ho
  obtain ⟨hr1, hr2⟩ := wfSeg_spec r0 hr
  have hrs : ∀ c ∈ r0, isSpace c = false := fun c hc => (hr2 c hc).1
  have hrl : ∀ c ∈ r0, c ≠ '/' := fun c hc => (hr2 c hc).2.2.1
  have hnl : ∀ (x : List Char), (∀ c ∈ x, isSpace c = false) →
      ∀ c ∈ x, c ≠ '\n' := by
    intro x hx c hc he
    subst he
    exact absurd (hx _ hc) (by decide)
  have hmid_ssh : ∀ c ∈ o, c ≠ ':' ∧ c ≠ '\n' :=
    fun c hc =>
      ⟨(ho2 c hc).2.1, hnl o (fun x hx => (ho2 x hx).1) c hc⟩
  have hssh : get_github_project_name (sshOrigin d o r0)
      = some (o ++ '/' :: r0) := by
    have e : sshOrigin d o r0
        = (( "git@").data ++ d) ++ ':' :: (o ++ '/' :: (r0 ++ gitSuffix)) := by
      simp [sshOrigin, List.append_assoc]
    rw [e]
    exact get_github_project_name_eq _ o r0 hmid_ssh hr1 hrs hrl
  refine ⟨hssh, ?_, hssh⟩
  have hmid_https : ∀ c ∈ '/' :: '/' :: (d ++ '/' :: o),
      c ≠ ':' ∧ c ≠ '\n' := by
    intro c hc
    rcases List.mem_cons.mp hc with h | h
    · subst h; exact ⟨by decide, by decide⟩
    rcases List.mem_cons.mp h with h | h
    · subst h; exact ⟨by decide, by decide⟩
    rcases List.mem_append.mp h with h | h
    · exact ⟨(hd2 c h).2.1, hnl d (fun x hx => (hd2 x hx).1) c h⟩
    rcases List.mem_cons.mp h with h | h
    · subst h; exact ⟨by decide, by decide⟩
    · exact ⟨(ho2 c h).2.1, hnl o (fun x hx => (ho2 x hx).1) c h⟩
  have e : httpsOrigin d o r0
      = [ 'h', 't', 't', 'p', 's' ] ++ ':' ::
        (('/' :: '/' :: (d ++ '/' :: o)) ++ '/' :: (r0 ++ gitSuffix)) := by
    simp [httpsOrigin, List.append_assoc]
  rw [e]
  rw [get_github_project_name_eq _ _ r0 hmid_https hr1 hrs hrl]
  simp [List.append_assoc]

/-- C3 witness: the spec's concrete Bitbucket scenario
`git@bitbucket.org:shorsher/test.git`, instantiated through
`c3_name_extraction`. -/
theorem c3_witness :
    get_bitbucket_project_name (sshOrigin (( "bitbucket.org").data)
        (( "shorsher").data) (( "test").data))
      = some (( "shorsher/test").data) := by
  have h := (c3_name_extraction (( "bitbucket.org").data) (( "shorsher").data)
    (( "test").data) (by decide) (by decide) (by decide)).2.2
  have e : (( "shorsher").data ++ '/' :: (( "test").data))
      = (( "shorsher/test").data) := by decide
  rw [← e]
  exact h

/-! ## Totality and failure characterization of domain extraction -/

theorem domainTake_ne_nil (s : List Char) (d : List Char)
    (h : domainTake s = some d) : d ≠ [] := by
  cases s with
  | nil => simp [domainTake] at h
  | cons c rest =>
    by_cases hc : c = ':' ∨ c = '/'
    · simp [domainTake, hc] at h
    · simp only [domainTake, if_neg hc] at h
      have h2 := Option.some.inj h
      intro hnil
      rw [hnil] at h2
      exact List.cons_ne_nil c _ h2

theorem uiGo_ne_nil (s : List Char) :
    ∀ d, uiGo s = some d → d ≠ [] := by
  induction s with
  | nil => intro d h; simp [uiGo] at h
  | cons c rest ih =>
    intro d h
    simp only [uiGo] at h
    by_cases hsp : isSpace c = true
    · rw [if_pos hsp] at h; exact Option.noConfusion h
    · rw [if_neg hsp] at h
      cases hu : uiGo rest with
      | some d2 =>
        rw [hu] at h
        have := Option.some.inj h
        rw [← this]
        exact ih d2 hu
      | none =>
        rw [hu] at h
        by_cases ha : c = '@'
        · rw [if_pos ha] at h
          exact domainTake_ne_nil rest d h
        · rw [if_neg ha] at h
          exact Option.noConfusion h

theorem restMatch_ne_nil (s : List Char) (d : List Char)
    (h : restMatch s = some d) : d ≠ [] := by
  unfold restMatch at h
  cases hu : uiMatch s with
  | some d2 =>
    rw [hu] at h
    have := Option.some.inj h
    rw [← this]
    cases s with
    | nil => simp [uiMatch] at hu
    | cons c rest =>
      simp only [uiMatch] at hu
      by_cases hsp : isSpace c = true
      · rw [if_pos hsp] at hu; exact Option.noConfusion hu
      · rw [if_neg hsp] at hu
        exact uiGo_ne_nil rest d2 hu
  | none =>
    rw [hu] at h
    exact domainTake_ne_nil s d h

theorem matchAt_ne_nil (s : List Char) (d : List Char)
    (h : matchAt s = some d) : d ≠ [] := by
  unfold matchAt at h
  split at h
  · split at h
    · rename_i d2 hr2
      rw [← Option.some.inj h]
      exact restMatch_ne_nil _ d2 hr2
    · exact restMatch_ne_nil s d h
  · exact restMatch_ne_nil s d h

theorem getDomainAux_ne_nil (l : List Char) :
    ∀ d, getDomainAux l = some d → d ≠ [] := by
  induction l with
  | nil => intro d h; simp [getDomainAux] at h
  | cons c rest ih =>
    intro d h
    simp only [getDomainAux] at h
    cases hm : matchAt (c :: rest) with
    | some d2 =>
      rw [hm] at h
      have := Option.some.inj h
      rw [← this]
      exact matchAt_ne_nil _ d2 hm
    | none =>
      rw [hm] at h
      exact ih d h

theorem schemeLen_cons_none (c : Char) (X : List Char)
    (h1 : c ≠ 'h') (h2 : c ≠ 's') : schemeLen (c :: X) = none := by
  simp [schemeLen, hasPrefix_cons_ne 'h' _ c _ h1,
    hasPrefix_cons_ne 's' _ c _ h2]

theorem uiGo_sep_none (s : List Char) (h : ∀ c ∈ s, c = ':' ∨ c = '/') :
    uiGo s = none := by
  apply uiGo_none
  intro c hc
  rcases h c hc with h2 | h2 <;> subst h2 <;> exact ⟨by decide, by decide⟩

theorem matchAt_sep_none (s : List Char) (h : ∀ c ∈ s, c = ':' ∨ c = '/') :
    matchAt s = none := by
  cases s with
  | nil => rfl
  | cons c rest =>
    have hrm : restMatch (c :: rest) = none := by
      have hui : uiMatch (c :: rest) = none := by
        have hsp : isSpace c = false := by
          rcases h c (List.mem_cons_self c rest) with h2 | h2 <;> subst h2 <;>
            decide
        simp only [uiMatch, hsp, Bool.false_eq_true, if_false]
        exact uiGo_sep_none rest
          (fun x hx => h x (List.mem_cons_of_mem c hx))
      have hdt : domainTake (c :: rest) = none := by
        simp [domainTake, h c (List.mem_cons_self c rest)]
      unfold restMatch
      rw [hui, hdt]
    have hsl : schemeLen (c :: rest) = none := by
      apply schemeLen_cons_none
      · rcases h c (List.mem_cons_self c rest) with h2 | h2 <;> subst h2 <;>
          decide
      · rcases h c (List.mem_cons_self c rest) with h2 | h2 <;> subst h2 <;>
          decide
    unfold matchAt
    rw [hsl, hrm]

theorem getDomainAux_sep_none (l : List Char)
    (h : ∀ c ∈ l, c = ':' ∨ c = '/') : getDomainAux l = none := by
  induction l with
  | nil => rfl
  | cons c rest ih =>
    simp only [getDomainAux]
    rw [matchAt_sep_none _ h]
    exact ih (fun x hx => h x (List.mem_cons_of_mem c hx))

theorem matchAt_head_some (c : Char) (rest : List Char)
    (hc : ¬(c = ':' ∨ c = '/')) : ∃ d, matchAt (c :: rest) = some d := by
  have hrm : ∃ d, restMatch (c :: rest) = some d := by
    unfold restMatch
    split
    · rename_i d hd
      exact ⟨d, rfl⟩
    · simp [domainTake, hc]
  unfold matchAt
  split
  · split
    · rename_i d2 hr2
      exact ⟨d2, rfl⟩
    · exact hrm
  · exact hrm

theorem getDomainAux_some (l : List Char)
    (h : ¬ ∀ c ∈ l, c = ':' ∨ c = '/') :
    ∃ d, getDomainAux l = some d := by
  induction l with
  | nil => exact absurd (by intro c hc; exact absurd hc (List.not_mem_nil c)) h
  | cons c rest ih =>
    by_cases hc : c = ':' ∨ c = '/'
    · have hr : ¬ ∀ x ∈ rest, x = ':' ∨ x = '/' := by
        intro hall
        apply h
        intro x hx
        rcases List.mem_cons.mp hx with h2 | h2
        · subst h2; exact hc
        · exact hall x h2
      obtain ⟨d, hd⟩ := ih hr
      cases hm : matchAt (c :: rest) with
      | some d2 => exact ⟨d2, by simp [getDomainAux, hm]⟩
      | none => exact ⟨d, by simp [getDomainAux, hm, hd]⟩
    · obtain ⟨d, hd⟩ := matchAt_head_some c rest hc
      exact ⟨d, by simp [getDomainAux, hd]⟩

/-- C8 counterexample: the claim says every URL-classification operation
returns a value or a typed failure and never panics, but on the empty origin
(matched by neither name regex) both name extractors hit
`captures(origin).unwrap()` on `None` — a panic, modelled by `none`. -/
theorem c8_counterexample :
    get_github_project_name [] = none ∧ get_gitlab_project_name [] = none :=
  ⟨rfl, rfl⟩

/-- C8 (amended): domain extraction and namespace extraction return a value
or a typed failure on every input and never panic (a returned domain is
always non-empty); but GitHub/Bitbucket and GitLab name extraction panic
(`unwrap` on a failed regex match, modelled by `none`) on malformed origins
such as the empty string. -/
theorem c8_classification_totality :
    (∀ l : List Char,
      get_domain l = Except.error "invalid remote set" ∨
        ∃ d, get_domain l = Except.ok d ∧ d ≠ [])
  ∧ (∀ l : List Char,
      get_gitlab_project_namespace l = none ∨
        ∃ v, get_gitlab_project_namespace l = some v)
  ∧ get_github_project_name [] = none
  ∧ get_gitlab_project_name [] = none := by
  refine ⟨?_, ?_, rfl, rfl⟩
  · intro l
    by_cases hall : ∀ c ∈ l, c = ':' ∨ c = '/'
    · left
      unfold get_domain
      rw [getDomainAux_sep_none l hall]
    · right
      obtain ⟨d, hd⟩ := getDomainAux_some l hall
      exact ⟨d, by unfold get_domain; rw [hd], getDomainAux_ne_nil l d hd⟩
  · intro l
    cases h : get_gitlab_project_namespace l with
    | none => exact Or.inl rfl
    | some v => exact Or.inr ⟨v, rfl⟩

/-- C10: `get_domain` fails (with its typed error `invalid remote set`)
exactly on the strings whose characters are all `:` or `/` (including the
empty string); every other input yields `Ok` with a non-empty domain; and the
scheme-only origin `https://` yields the scheme text `https` as the domain. -/
theorem c10_domain_extraction :
    (∀ l : List Char,
      (get_domain l = Except.error "invalid remote set" ↔
        ∀ c ∈ l, c = ':' ∨ c = '/')
      ∧ ((¬ ∀ c ∈ l, c = ':' ∨ c = '/') →
        ∃ d, get_domain l = Except.ok d ∧ d ≠ []))
  ∧ get_domain (( "https://").data) = Except.ok (( "https").data) := by
  constructor
  · intro l
    constructor
    · constructor
      · intro he
        by_contra hall
        obtain ⟨d, hd⟩ := getDomainAux_some l hall
        unfold get_domain at he
        rw [hd] at he
        exact Except.noConfusion he
      · intro hall
        unfold get_domain
        rw [getDomainAux_sep_none l hall]
    · intro hall
      obtain ⟨d, hd⟩ := getDomainAux_some l hall
      exact ⟨d, by unfold get_domain; rw [hd], getDomainAux_ne_nil l d hd⟩
  · rfl

/-- C10 witness: `c10_domain_extraction` applied at the concrete input
`://:::` (all characters `:` or `/`), discharging the characterization's
hypothesis by `decide`. -/
theorem c10_witness :
    get_domain (( "://:::").data) = Except.error "invalid remote set" :=
  ((c10_domain_extraction.1 (( "://:::").data)).1).mpr (by decide)

/-- C1: GitLab project-identity resolution.  (i) On a success status of the
direct lookup, the result is determined by the direct response alone (the
right-hand side mentions no search field, so the namespace-search path is not
invoked), returning the body's `id`; at the `get_project_id` level a direct
success body `{id: N}` yields the string `N`.  (ii) On a non-success status
it falls back to the search (the direct call site does not error: a search
success is passed through, and only a search *failure* is converted into the
fallback message).  (iii) The search fails with `namespaceNotFound`
(`UnresolvableNamespace`) on a non-success namespace lookup, (iv) lists the
user's projects for kind `user`, the group's (name-filtered) projects for
kind `group`, and fails with `unknownNamespace` (`UnresolvableNamespace`) for
any other kind; (v) the project scan fails with `projectNotFound` when no
exact name match exists and (vi) returns the id of the first project whose
name equals the repository name exactly. -/
theorem c1_gitlab_resolution (remote : GitLab) (env : GitLabEnv) :
    (env.direct.success = true →
      query_gitlab_project_id remote env
        = Option.map (fun b => Except.ok b.id) env.direct.body)
  ∧ (env.direct.success = true → remote.id = [] →
      ∀ b, env.direct.body = some b →
      GitLab.get_project_id remote env
        = some (Except.ok (intToString b.id,
            { remote with id := intToString b.id })))
  ∧ (env.direct.success = false →
      query_gitlab_project_id remote env
        = match search_gitlab_project_id remote env with
          | none => none
          | some (Except.ok i) => some (Except.ok i)
          | some (Except.error _) => some (Except.error glFallbackMsg))
  ∧ (env.nsResp.success = false →
      search_gitlab_project_id remote env
        = some (Except.error GlErr.namespaceNotFound))
  ∧ (∀ nb, env.nsResp.success = true → env.nsResp.body = some nb →
      (nb.kind = ( "user").data →
        search_gitlab_project_id remote env
          = match env.userProjects with
            | none => none
            | some ps => glFindProject ps remote.name)
      ∧ (nb.kind = ( "group").data →
        search_gitlab_project_id remote env
          = match env.groupProjects with
            | none => none
            | some ps => glFindProject ps remote.name)
      ∧ (nb.kind ≠ ( "user").data → nb.kind ≠ ( "group").data →
        search_gitlab_project_id remote env
          = some (Except.error GlErr.unknownNamespace)))
  ∧ (∀ (ps : List GitLabProject) (nm : List Char),
      (∀ prj ∈ ps, prj.name ≠ nm) →
      glFindProject ps nm = some (Except.error GlErr.projectNotFound))
  ∧ (∀ (pre : List GitLabProject) (p : GitLabProject)
      (post : List GitLabProject) (nm : List Char), p.name = nm →
      (∀ q ∈ pre, q.name ≠ nm) →
      glFindProject (pre ++ p :: post) nm = some (Except.ok p.id)) := by
  refine ⟨?_, ?_, ?_, ?_, ?_, ?_, ?_⟩
  · intro h
    simp [query_gitlab_project_id, h]
    cases env.direct.body <;> rfl
  · intro h hid b hb
    have hq : query_gitlab_project_id remote env
        = some (Except.ok b.id) := by
      simp [query_gitlab_project_id, h, hb]
    simp [GitLab.get_project_id, hid, hq]
  · intro h
    simp [query_gitlab_project_id, h]
  · intro h
    simp [search_gitlab_project_id, h]
  · intro nb h hb
    refine ⟨?_, ?_, ?_⟩
    · intro hk
      simp [search_gitlab_project_id, h, hb, hk]
    · intro hk
      have hne : nb.kind ≠ ( "user").data := by rw [hk]; decide
      simp [search_gitlab_project_id, h, hb, hk, hne]
    · intro h1 h2
      simp [search_gitlab_project_id, h, hb, h1, h2]
  · intro ps nm hno
    have hf : ps.find? (fun prj => prj.name == nm) = none := by
      rw [List.find?_eq_none]
      intro x hx
      simp [hno x hx]
    simp [glFindProject, hf]
  · intro pre p post nm hp
    induction pre with
    | nil =>
      intro _
      have hf : (p :: post).find? (fun prj => prj.name == nm) = some p :=
        List.find?_cons_of_pos _ (by simp [hp])
      simp [glFindProject, hf]
    | cons q pre ih =>
      intro hpre
      have hq : ¬(((fun prj => prj.name == nm) q) = true) := by
        simp [hpre q (List.mem_cons_self q pre)]
      simp only [List.cons_append, glFindProject]
      rw [@List.find?_cons_of_neg GitLabProject (fun prj => prj.name == nm) q
        (pre ++ p :: post) hq]
      exact ih (fun x hx => hpre x (List.mem_cons_of_mem q hx))

/-- Concrete GitLab remote for the C1 witness. -/
def c1Remote : GitLab :=
  { id := [], domain := ( "gitlab.com").data, name := ( "my_project").data
    nspace := ( "my_namespace").data, origin := [], api_root := []
    api_key := [] }

/-- Concrete environment for the C1 witness: the direct lookup succeeds with
body `{id: 42}`. -/
def c1Env : GitLabEnv :=
  { direct :=
      { success := true,
        body := some
          { id := 42, description := none, name := ( "my_project").data,
            path := [], path_with_namespace := [] } },
    nsResp := { success := false, body := none },
    userProjects := none,
    groupProjects := none }

/-- C1 witness: the spec scenario — a direct-lookup success `{id: 42}` makes
`get_project_id` return the string `42` (and cache it), via
`c1_gitlab_resolution`. -/
theorem c1_witness :
    GitLab.get_project_id c1Remote c1Env
      = some (Except.ok (( "42").data,
          { c1Remote with id := ( "42").data })) := by
  have h := (c1_gitlab_resolution c1Remote c1Env).2.1 (by rfl) (by rfl)
    { id := 42, description := none, name := ( "my_project").data,
      path := [], path_with_namespace := [] } (by rfl)
  have e : intToString 42 = ( "42").data := rfl
  rw [e] at h
  exact h

/-- C6: GitLab identity resolution runs at most once per repository.
(i) With a non-empty cached `id`, `get_project_id` returns it unchanged for
*every* environment (the right-hand side mentions no HTTP response, so no
resolution is performed).  (ii) With an empty `id`, a resolved identity is
cached on the instance before being returned.  (iii) When the repo-local
`projectid` config holds a value, the gitlab client built by `get_remote`
carries exactly that value and nothing is written back, and (iv) the whole
run is independent of the GitLab HTTP environment (the resolution path is
not invoked).  (v) When the config is empty, the freshly resolved identity
is persisted via the `projectid` config write. -/
theorem c6_resolution_once :
    (∀ (g : GitLab) (env : GitLabEnv), g.id ≠ [] →
      GitLab.get_project_id g env = some (Except.ok (g.id, g)))
  ∧ (∀ (g : GitLab) (env : GitLabEnv) (n : Int), g.id = [] →
      query_gitlab_project_id g env = some (Except.ok n) →
      GitLab.get_project_id g env
        = some (Except.ok (intToString n, { g with id := intToString n })))
  ∧ (∀ (origin : List Char) (ctx : Ctx) (g : GitLab) (eff : Effects)
      (pid : List Char),
      get_remote origin ctx = some (Except.ok (RemoteClient.gitlab g, eff)) →
      ctx.projectIdStore = some pid →
      g.id = pid ∧ eff.projectIdWrite = none)
  ∧ (∀ (origin : List Char) (ctx : Ctx) (pid : List Char) (env2 : GitLabEnv),
      ctx.projectIdStore = some pid →
      get_remote origin { ctx with glEnv := env2 } = get_remote origin ctx)
  ∧ (∀ (origin : List Char) (ctx : Ctx) (g : GitLab) (eff : Effects),
      get_remote origin ctx = some (Except.ok (RemoteClient.gitlab g, eff)) →
      ctx.projectIdStore = none →
      eff.projectIdWrite = some g.id) := by
  refine ⟨?_, ?_, ?_, ?_, ?_⟩
  · intro g env h
    simp [GitLab.get_project_id, h]
  · intro g env n h hq
    simp [GitLab.get_project_id, h, hq]
  · intro origin ctx g eff pid hr hst
    unfold get_remote at hr
    split at hr
    · simp at hr
    · split at hr
      · split at hr
        · simp at hr
        · simp at hr
      · split at hr
        · simp at hr
        · split at hr
          · simp at hr
          · split at hr
            · rename_i pid2 hst2
              rw [hst] at hst2
              have hpid := Option.some.inj hst2
              subst hpid
              have h2 := Except.ok.inj (Option.some.inj hr)
              have h3 := congrArg Prod.fst h2
              have h4 := congrArg Prod.snd h2
              simp only at h3 h4
              have h5 := RemoteClient.gitlab.inj h3
              constructor
              · rw [← h5]
              · rw [← h4]
            · rename_i hst2
              rw [hst] at hst2
              exact Option.noConfusion hst2
  · intro origin ctx pid env2 hst
    unfold get_remote
    cases hdom : getDomainAux origin with
    | none => rfl
    | some domain =>
      by_cases hgh : domain = ( "github.com").data
      · simp [hgh]
      · simp only [if_neg hgh]
        cases hns : get_gitlab_project_namespace origin with
        | none => rfl
        | some ns =>
          cases hnm : get_gitlab_project_name origin with
          | none => rfl
          | some nm =>
            simp only [hst]
  · intro origin ctx g eff hr hst
    unfold get_remote at hr
    split at hr
    · simp at hr
    · split at hr
      · split at hr
        · simp at hr
        · simp at hr
      · split at hr
        · simp at hr
        · split at hr
          · simp at hr
          · split at hr
            · rename_i pid2 hst2
              rw [hst] at hst2
              exact Option.noConfusion hst2
            · simp only [] at hr
              split at hr
              · simp at hr
              · simp at hr
              · rename_i pid2 g2 hres
                have h2 := Except.ok.inj (Option.some.inj hr)
                have h3 := congrArg Prod.fst h2
                have h4 := congrArg Prod.snd h2
                simp only at h3 h4
                have h5 := RemoteClient.gitlab.inj h3
                rw [← h4, ← h5]

/-- A GitLab remote with an already-resolved id, for the C6 witness. -/
def c6Remote : GitLab :=
  { id := ( "7").data, domain := ( "gitlab.com").data, name := ( "p").data
    nspace := ( "ns").data, origin := [], api_root := [], api_key := [] }

/-- An environment in which every lookup fails, for the C6 witness: a cached
identity must make the outcome independent of it. -/
def c6Env : GitLabEnv :=
  { direct := { success := false, body := none }
    nsResp := { success := false, body := none }
    userProjects := none
    groupProjects := none }

/-- A context with a stored `projectid`, for the C6 witness. -/
def c6Ctx : Ctx :=
  { apikeyStore := fun _ => some (( "k").data), promptInput := []
    projectIdStore := some (( "7").data), glEnv := c6Env }

/-- C6 witness: with a non-empty cached id, `get_project_id` returns it even
in the all-failing environment, and with a stored `projectid` the whole
`get_remote` run does not depend on the HTTP environment — both through
`c6_resolution_once`. -/
theorem c6_witness :
    GitLab.get_project_id c6Remote c6Env
      = some (Except.ok (c6Remote.id, c6Remote))
  ∧ get_remote (sshOrigin (( "gitlab.com").data) (( "ns").data) (( "p").data))
      { c6Ctx with glEnv :=
        { direct := { success := true, body := none }
          nsResp := { success := true, body := none }
          userProjects := some []
          groupProjects := some [] } }
    = get_remote (sshOrigin (( "gitlab.com").data) (( "ns").data)
        (( "p").data)) c6Ctx :=
  ⟨c6_resolution_once.1 c6Remote c6Env (by decide),
    c6_resolution_once.2.2.2.1 _ c6Ctx (( "7").data) _ (by rfl)⟩

/-- C9: whenever `get_remote` succeeds, the returned client is the GitHub
client exactly when the extracted domain is `github.com`, and it is never
the Bitbucket client (every non-`github.com` domain, `bitbucket.org`
included, takes the GitLab branch). -/
theorem c9_provider_selection :
    ∀ (origin : List Char) (ctx : Ctx) (r : RemoteClient) (eff : Effects),
      get_remote origin ctx = some (Except.ok (r, eff)) →
      ((∃ g, r = RemoteClient.github g) ↔
        getDomainAux origin = some (( "github.com").data))
      ∧ ∀ b, r ≠ RemoteClient.bitbucket b := by
  intro origin ctx r eff hr
  unfold get_remote at hr
  split at hr
  · simp at hr
  · rename_i domain hdom
    by_cases hgh : domain = ( "github.com").data
    · rw [if_pos hgh] at hr
      split at hr
      · simp at hr
      · rename_i nm hnm
        have h2 := Except.ok.inj (Option.some.inj hr)
        have h3 := congrArg Prod.fst h2
        simp only at h3
        constructor
        · constructor
          · intro _
            rw [hdom, hgh]
          · intro _
            exact ⟨_, h3.symm⟩
        · intro b hb
          rw [← h3] at hb
          exact RemoteClient.noConfusion hb
    · rw [if_neg hgh] at hr
      split at hr
      · simp at hr
      · rename_i ns hns
        split at hr
        · simp at hr
        · rename_i nm hnm
          split at hr
          · rename_i pid hst
            have h2 := Except.ok.inj (Option.some.inj hr)
            have h3 := congrArg Prod.fst h2
            simp only at h3
            constructor
            · constructor
              · intro hex
                obtain ⟨g0, hg0⟩ := hex
                rw [← h3] at hg0
                exact RemoteClient.noConfusion hg0
              · intro hdg
                rw [hdom] at hdg
                exact absurd (Option.some.inj hdg) hgh
            · intro b hb
              rw [← h3] at hb
              exact RemoteClient.noConfusion hb
          · simp only [] at hr
            split at hr
            · simp at hr
            · simp at hr
            · rename_i pid g2 hres
              have h2 := Except.ok.inj (Option.some.inj hr)
              have h3 := congrArg Prod.fst h2
              simp only at h3
              constructor
              · constructor
                · intro hex
                  obtain ⟨g0, hg0⟩ := hex
                  rw [← h3] at hg0
                  exact RemoteClient.noConfusion hg0
                · intro hdg
                  rw [hdom] at hdg
                  exact absurd (Option.some.inj hdg) hgh
              · intro b hb
                rw [← h3] at hb
                exact RemoteClient.noConfusion hb

/-- The Bitbucket-hosted origin `git@bitbucket.org:shorsher/test.git` for the
C9 witness. -/
def c9Origin : List Char :=
  sshOrigin (( "bitbucket.org").data) (( "shorsher").data) (( "test").data)

/-- Context for the C9 witness: stored api key and stored project id. -/
def c9Ctx : Ctx :=
  { apikeyStore := fun _ => some (( "k").data), promptInput := []
    projectIdStore := some (( "1").data), glEnv := c6Env }

/-- The client `get_remote` actually builds for `c9Origin`: a GitLab client,
although the origin is hosted on bitbucket.org. -/
def c9Client : RemoteClient :=
  RemoteClient.gitlab
    { id := ( "1").data, domain := ( "bitbucket.org").data
      name := ( "test").data, nspace := ( "shorsher").data
      origin := c9Origin
      api_root := ( "https://").data ++ ( "bitbucket.org").data
        ++ ( "/api/v4").data
      api_key := ( "k").data }

/-- C9 witness: `c9_provider_selection` applied to the successful run on the
bitbucket.org origin — the constructed client is not the GitHub client and
not the Bitbucket client. -/
theorem c9_witness :
    ((∃ g, c9Client = RemoteClient.github g) ↔
      getDomainAux c9Origin = some (( "github.com").data))
    ∧ ∀ b, c9Client ≠ RemoteClient.bitbucket b :=
  c9_provider_selection c9Origin c9Ctx c9Client
    { apikeyWrite := none, prompted := false, projectIdWrite := none }
    (by rfl)
